import Mathlib

/-!
Shallow embedding of the zod-conf binding-and-resolution engine.

The embedding follows the source files of the repository:
  - src/values/env-metadata.ts : the WeakMap side table holding, for each
    schema node identity, the bound environment key and semantic type tag.
  - src/values/env.ts : the env(key) binding constructors and the Proxy based
    wrap function that re-registers the same metadata on every chained result.
  - src/values/define.ts : ZodConfSchema with resolveEnvValue, loadValue,
    load and safeLoad over an ordered list of loaders (env or values).

JavaScript numbers are modelled as NaN, a signed infinity, or a finite
IEEE double represented by the exact dyadic rational it denotes; the
string-to-number conversion rounds to the nearest double with ties to even
and overflows to infinity, as ECMAScript does.  Negative zero is conflated
with zero, which it compares equal to in JavaScript.  Object identity,
which the WeakMap keys on, is modelled by natural-number node ids allocated
from a counter carried in the metadata store.
-/

namespace ZodConf

/-- A JavaScript number: NaN, a signed infinity, or a finite double
modelled as the exact dyadic rational it denotes. -/
inductive JsNumber where
  | nan
  | inf (neg : Bool)
  | finite (q : ℚ)
deriving DecidableEq, Repr

/-- The test Number.isNaN performs, on the model. -/
def jsIsNaN : JsNumber → Bool
  | .nan => true
  | _ => false

/-- The test Number.isInteger performs: a finite value with no fractional
part. -/
def jsIsInteger : JsNumber → Bool
  | .finite q => q.den = 1
  | _ => false

/-- White space and line terminator characters trimmed by the ECMAScript
string-to-number conversion. -/
def isJsWhite (c : Char) : Bool :=
  c = ' ' || c = '\t' || c = '\n' || c = '\x0b' || c = '\x0c' || c = '\r' ||
  c = '\u00a0' || c = '\u1680' || ('\u2000' ≤ c && c ≤ '\u200a') ||
  c = '\u2028' || c = '\u2029' || c = '\u202f' || c = '\u205f' ||
  c = '\u3000' || c = '\ufeff'

/-- Value of a digit character in a given radix, as used by the numeric
literal grammar; only applied to characters accepted by the radix check. -/
def digitVal (c : Char) : Nat :=
  if '0' ≤ c && c ≤ '9' then c.toNat - '0'.toNat
  else if 'a' ≤ c && c ≤ 'f' then c.toNat - 'a'.toNat + 10
  else if 'A' ≤ c && c ≤ 'F' then c.toNat - 'A'.toNat + 10
  else 0

/-- Whether a character is a valid digit for the given radix (2, 8 or 16). -/
def isRadixDigit (radix : Nat) (c : Char) : Bool :=
  match radix with
  | 16 => c.isDigit || ('a' ≤ c && c ≤ 'f') || ('A' ≤ c && c ≤ 'F')
  | 8 => '0' ≤ c && c ≤ '7'
  | _ => c = '0' || c = '1'

/-- Horner evaluation of a digit list in the given radix. -/
def digitsToNat (radix : Nat) (ds : List Char) : Nat :=
  ds.foldl (fun a c => a * radix + digitVal c) 0

/-- Number of binary digits of a natural number, by fuel recursion so the
kernel can evaluate it (the fuel bounds the recursion depth, which is the
bit length itself). -/
def bitLenAux : Nat → Nat → Nat
  | 0, _ => 0
  | fuel + 1, n => if n = 0 then 0 else bitLenAux fuel (n / 2) + 1

/-- Number of binary digits of a natural number. -/
def bitLen (n : Nat) : Nat := bitLenAux n n

/-- Number of decimal digits of a natural number, by fuel recursion. -/
def decDigitsAux : Nat → Nat → Nat
  | 0, _ => 0
  | fuel + 1, n => if n = 0 then 0 else decDigitsAux fuel (n / 10) + 1

/-- Number of decimal digits of a natural number. -/
def decDigits (n : Nat) : Nat := decDigitsAux n n

/-- Round the fraction p / q (with q positive) to the nearest integer,
ties to even. -/
def roundHalfEven (p q : Nat) : Nat :=
  let t := p / q
  let r := p % q
  if q < 2 * r then t + 1
  else if 2 * r < q then t
  else if t % 2 = 0 then t else t + 1

/-- Round sign * (a / b), with a and b positive, to the nearest IEEE
double: locate the binary exponent k with 2 ^ k ≤ a / b < 2 ^ (k + 1) by
bit lengths, scale to a 53-bit significand (or the fixed subnormal scale
below 2 ^ (-1022)), round ties to even, and overflow to infinity at
2 ^ 1024. -/
def roundPosToDouble (sign : Int) (a b : Nat) : JsNumber :=
  let la := bitLen a
  let lb := bitLen b
  let g : Int := (la : Int) - (lb : Int)
  let k : Int := if b * 2 ^ la ≤ a * 2 ^ lb then g else g - 1
  if 1024 ≤ k then .inf (sign < 0)
  else
    let kk : Int := if k < -1022 then -1022 else k
    let shift : Int := 52 - kk
    let s : Nat :=
      if 0 ≤ shift then roundHalfEven (a * 2 ^ shift.toNat) b
      else roundHalfEven a (b * 2 ^ (-shift).toNat)
    if s = 0 then .finite (mkRat 0 1)
    else if 0 ≤ kk - 52 then
      if 2 ^ 1024 ≤ s * 2 ^ (kk - 52).toNat then .inf (sign < 0)
      else .finite (mkRat (sign * ((s * 2 ^ (kk - 52).toNat : Nat) : Int)) 1)
    else .finite (mkRat (sign * (s : Int)) (2 ^ (52 - kk).toNat))

/-- Round sign * D * 10 ^ e10 to the nearest IEEE double.  Decimal
magnitudes far above the double range overflow to infinity and magnitudes
far below the subnormal range flush to zero before any large power is
built; everything near the representable range is rounded exactly. -/
def roundDecToDouble (sign : Int) (D : Nat) (e10 : Int) : JsNumber :=
  if D = 0 then .finite (mkRat 0 1)
  else if 310 < (decDigits D : Int) + e10 then .inf (sign < 0)
  else if (decDigits D : Int) + e10 < -325 then .finite (mkRat 0 1)
  else if 0 ≤ e10 then roundPosToDouble sign (D * 10 ^ e10.toNat) 1
  else roundPosToDouble sign D (10 ^ (-e10).toNat)

/-- Value of a decimal literal sign * (ip.fp) * 10 ^ e as the nearest IEEE
double. -/
def mkDecimalValue (sign : Int) (ip fp : List Char) (e : Int) : JsNumber :=
  roundDecToDouble sign (digitsToNat 10 (ip ++ fp)) (e - (fp.length : Int))

/-- Parse the optional exponent part of a decimal literal; the whole input
must be consumed, anything left over makes the conversion NaN. -/
def parseExpPart (sign : Int) (ip fp : List Char) : List Char → JsNumber
  | [] => mkDecimalValue sign ip fp 0
  | e :: r =>
    if e = 'e' || e = 'E' then
      let signedRest : Int × List Char :=
        match r with
        | '+' :: r2 => (1, r2)
        | '-' :: r2 => (-1, r2)
        | _ => (1, r)
      let eds := signedRest.2.takeWhile Char.isDigit
      let r3 := signedRest.2.dropWhile Char.isDigit
      if eds.isEmpty || !r3.isEmpty then .nan
      else mkDecimalValue sign ip fp (signedRest.1 * (digitsToNat 10 eds : Int))
    else .nan

/-- Parse an unsigned decimal literal: digits, optional fraction, optional
exponent. -/
def parseDecimal (sign : Int) (cs : List Char) : JsNumber :=
  let ip := cs.takeWhile Char.isDigit
  let rest := cs.dropWhile Char.isDigit
  match rest with
  | '.' :: r2 =>
    let fp := r2.takeWhile Char.isDigit
    let rest2 := r2.dropWhile Char.isDigit
    if ip.isEmpty && fp.isEmpty then .nan
    else parseExpPart sign ip fp rest2
  | _ =>
    if ip.isEmpty then .nan
    else parseExpPart sign ip [] rest

/-- Parse an unsigned numeric part: the Infinity literal or a decimal
literal. -/
def parseUnsigned (sign : Int) (cs : List Char) : JsNumber :=
  if cs = "Infinity".toList then .inf (sign < 0)
  else parseDecimal sign cs

/-- Parse a possibly signed decimal or Infinity literal. -/
def parseSigned : List Char → JsNumber
  | '+' :: r => parseUnsigned 1 r
  | '-' :: r => parseUnsigned (-1) r
  | cs => parseUnsigned 1 cs

/-- Parse an unsigned radix literal (hex, octal or binary body after the
prefix); empty or invalid digits make the conversion NaN. -/
def parseRadix (radix : Nat) (cs : List Char) : JsNumber :=
  if cs.isEmpty || !(cs.all (isRadixDigit radix)) then .nan
  else roundDecToDouble 1 (digitsToNat radix cs) 0

/-- The ECMAScript conversion from a string to a number, as performed by
Number(value) in resolveEnvValue: trim white space, empty gives 0, then a
hex, octal, binary, Infinity or signed decimal literal consuming the whole
remainder; anything else is NaN. -/
def jsStringToNumber (s : String) : JsNumber :=
  let cs := ((s.toList.dropWhile isJsWhite).reverse.dropWhile isJsWhite).reverse
  match cs with
  | [] => .finite (mkRat 0 1)
  | '0' :: x :: rest =>
    if x = 'x' || x = 'X' then parseRadix 16 rest
    else if x = 'o' || x = 'O' then parseRadix 8 rest
    else if x = 'b' || x = 'B' then parseRadix 2 rest
    else parseSigned cs
  | _ => parseSigned cs

example : jsStringToNumber "3000" = .finite (mkRat 3000 1) := by decide
example : jsStringToNumber "nope" = .nan := by decide
example : jsStringToNumber "3.14" = .finite (mkRat 7070651414971679 2251799813685248) := by
  decide
example : jsStringToNumber "1" = .finite (mkRat 1 1) := by decide
example : jsStringToNumber "pending" = .nan := by decide
example : jsStringToNumber "" = .finite (mkRat 0 1) := by decide
example : jsStringToNumber "1e2" = .finite (mkRat 100 1) := by decide
example : jsStringToNumber "0x10" = .finite (mkRat 16 1) := by decide
example : jsStringToNumber " 42 " = .finite (mkRat 42 1) := by decide
example : jsStringToNumber "-2.5" = .finite (mkRat (-5) 2) := by decide
example : jsStringToNumber "Infinity" = .inf false := by decide
example : jsStringToNumber "0.1" = .finite (mkRat 3602879701896397 36028797018963968) := by
  decide
example : jsStringToNumber "1e999" = .inf false := by decide
example : jsStringToNumber "-1e999" = .inf true := by decide
example : jsStringToNumber "1e-999" = .finite (mkRat 0 1) := by decide
set_option maxRecDepth 20000 in
example : jsStringToNumber "9007199254740993" = .finite (mkRat 9007199254740992 1) := by
  decide
set_option maxRecDepth 20000 in
example : jsStringToNumber "9007199254740995" = .finite (mkRat 9007199254740996 1) := by
  decide
set_option maxRecDepth 20000 in
example : jsStringToNumber "1.7976931348623159e308" = .inf false := by decide
set_option maxRecDepth 20000 in
example : jsStringToNumber "5e-324" = .finite (mkRat 1 (2 ^ 1074)) := by decide
set_option maxRecDepth 20000 in
example : jsStringToNumber "1.0000000000000000001" = .finite (mkRat 1 1) := by decide
example : jsIsInteger (jsStringToNumber "3.14") = false := by decide
example : jsIsInteger (jsStringToNumber "1") = true := by decide
example : jsIsInteger (jsStringToNumber "1e999") = false := by decide

/-- A plain JavaScript value, as it appears in a values loader tree and in
the merged input tree handed to the validator. -/
inductive Value where
  | str (s : String)
  | num (n : JsNumber)
  | bool (b : Bool)
  | null
  | obj (fields : List (String × Value))

/-- First-match association-list lookup; JavaScript records have unique
keys, and the metadata store prepends on write so the first match is the
latest one. -/
def assocLookup {α β : Type} [DecidableEq α] (key : α) : List (α × β) → Option β
  | [] => none
  | (k, v) :: rest => if k = key then some v else assocLookup key rest

/-- One entry of the env metadata side table: the bound environment key and
the semantic type tag (the source stores the tag as a string, one of
string, number, boolean, enum). -/
structure Metadata where
  key : String
  tag : String
deriving DecidableEq

/-- The WeakMap of env-metadata.ts keyed by schema-node identity, with
identity modelled as a Nat id; next is the allocator for fresh identities. -/
structure MetaStore where
  next : Nat
  entries : List (Nat × Metadata)
deriving DecidableEq

/-- WeakMap.get on a node identity. -/
def storeGet (st : MetaStore) (id : Nat) : Option Metadata :=
  assocLookup id st.entries

/-- WeakMap.set on a node identity; prepending means a later set on the
same identity shadows the earlier one, like the real overwrite. -/
def storeSet (st : MetaStore) (id : Nat) (md : Metadata) : MetaStore :=
  ⟨st.next, (id, md) :: st.entries⟩

/-- Allocate a fresh node identity. -/
def alloc (st : MetaStore) : Nat × MetaStore :=
  (st.next, ⟨st.next + 1, st.entries⟩)

/-- A schema node, as seen by the resolver:
  - leaf: a base zod validator whose def has neither innerType nor schema
    (ZodString, ZodNumber, ZodBoolean, ZodEnum);
  - wrapper: a combinator node whose def has innerType (ZodDefault,
    ZodOptional, ZodNullable);
  - effects: a node whose def has schema (ZodEffects from transform or
    refine);
  - proxy: the interception layer built by wrap in env.ts around a target
    node, with the env key and type tag captured by the wrap closure;
  - zobject: a ZodObject with its shape.
Every node carries its identity. -/
inductive SchemaN where
  | leaf (id : Nat)
  | wrapper (id : Nat) (inner : SchemaN)
  | effects (id : Nat) (inner : SchemaN)
  | proxy (id : Nat) (captured : Metadata) (target : SchemaN)
  | zobject (id : Nat) (shape : List (String × SchemaN))

/-- The identity of the outermost node. -/
def SchemaN.topId : SchemaN → Nat
  | .leaf i => i
  | .wrapper i _ => i
  | .effects i _ => i
  | .proxy i _ _ => i
  | .zobject i _ => i

/-- The instanceof ZodObject test performed by loadValue. -/
def SchemaN.isZodObject : SchemaN → Bool
  | .zobject _ _ => true
  | _ => false

/-- The metadata walk of resolveEnvValue: check the store at the current
node; if absent follow def.innerType (wrapper) or def.schema (effects) and
continue; stop with no metadata when the def has neither.  A proxy forwards
property reads to its target, so an unregistered proxy walks like its
target (wrap registers only the proxy identity, never the raw target, so
the inserted check on the target identity finds nothing in reachable
states). -/
def findMetadataN (st : MetaStore) : SchemaN → Option Metadata
  | .leaf i => storeGet st i
  | .wrapper i inner =>
    match storeGet st i with
    | some md => some md
    | none => findMetadataN st inner
  | .effects i inner =>
    match storeGet st i with
    | some md => some md
    | none => findMetadataN st inner
  | .proxy i _ target =>
    match storeGet st i with
    | some md => some md
    | none => findMetadataN st target
  | .zobject i _ => storeGet st i

/-- An environment loader body: string keys to string values, an absent key
reading as undefined. -/
def Env : Type := List (String × String)

/-- One source handed to load/safeLoad: an env loader or a values loader. -/
inductive Loader where
  | env (e : List (String × String))
  | values (v : List (String × Value))

/-- resolveEnvValue of define.ts, given the metadata walk result: the
source guards with a truthiness test on the recovered key, so both a
missing annotation and an annotation whose external key is the empty
(falsy) string resolve to undefined; otherwise read the raw string at the
bound key and coerce it by the semantic tag.
  - string: pass the raw value through, including absence;
  - number: a truthy (present, non-empty) raw string becomes Number(raw),
    anything else undefined;
  - boolean: the exact strings true and false, anything else undefined;
  - enum: a truthy raw string whose Number image is a non-NaN integer
    becomes that number, any other present string passes through, an absent
    value passes through as undefined;
  - an unknown tag resolves to undefined. -/
def resolveEnvValueN (st : MetaStore) (s : SchemaN) (env : List (String × String)) :
    Option Value :=
  match findMetadataN st s with
  | none => none
  | some md =>
    if md.key = "" then none
    else
    let value := assocLookup md.key env
    if md.tag = "string" then value.map Value.str
    else if md.tag = "number" then
      match value with
      | some v => if v = "" then none else some (.num (jsStringToNumber v))
      | none => none
    else if md.tag = "boolean" then
      if value = some "true" then some (.bool true)
      else if value = some "false" then some (.bool false)
      else none
    else if md.tag = "enum" then
      match value with
      | some v =>
        if v ≠ "" && !jsIsNaN (jsStringToNumber v) && jsIsInteger (jsStringToNumber v) then
          some (.num (jsStringToNumber v))
        else some (.str v)
      | none => none
    else none

/-- The value one loader yields for a leaf field inside the loader loop of
loadValue: a values loader reads the raw value by field name directly, an
env loader resolves by the bound key and semantic tag. -/
def sourceYield (st : MetaStore) (s : SchemaN) (key : String) : Loader → Option Value
  | .values vs => assocLookup key vs
  | .env e => resolveEnvValueN st s e

/-- The loader loop of loadValue for one leaf field: try each loader in
order; a defined yield overwrites the tentative value, an undefined one
leaves it. -/
def resolveField (st : MetaStore) (s : SchemaN) (key : String) (loaders : List Loader) :
    Option Value :=
  loaders.foldl
    (fun acc l =>
      match sourceYield st s key l with
      | some v => some v
      | none => acc)
    none

/-- Narrowing of one values loader at a nested field: the sub-tree at the
field name when it is a truthy object, the empty tree otherwise (absent
keys, null and primitives all narrow to the empty tree). -/
def narrowValues (vs : List (String × Value)) (key : String) : List (String × Value) :=
  match assocLookup key vs with
  | some (Value.obj fields) => fields
  | _ => []

/-- The per-level loader adjustment of loadValue for a nested object field:
values loaders are narrowed to the sub-tree at the field name, env loaders
are passed through unchanged. -/
def narrowLoaders (key : String) (loaders : List Loader) : List Loader :=
  loaders.map fun l =>
    match l with
    | .values vs => .values (narrowValues vs key)
    | .env e => .env e

/-- loadValue of define.ts: walk the shape in order; a ZodObject field
recurses with the adjusted loaders and is always assigned the resulting
object; a leaf field is assigned its resolved value when defined and left
absent otherwise. -/
def loadValueN (st : MetaStore) : List (String × SchemaN) → List Loader →
    List (String × Value)
  | [], _ => []
  | (key, s) :: rest, loaders =>
    match s with
    | .zobject _ sub =>
      (key, .obj (loadValueN st sub (narrowLoaders key loaders))) ::
        loadValueN st rest loaders
    | _ =>
      match resolveField st s key loaders with
      | some v => (key, v) :: loadValueN st rest loaders
      | none => loadValueN st rest loaders

/-- The chainable combinators a caller can invoke on a binding; default,
optional and nullable produce nodes with def.innerType, transform and
refine produce ZodEffects nodes with def.schema. -/
inductive Comb where
  | cdefault
  | coptional
  | cnullable
  | ctransform
  | crefine
deriving DecidableEq

/-- The plain zod result of invoking one combinator on a target node: a
fresh node whose def points at the target. -/
def rawApply (c : Comb) (id : Nat) (target : SchemaN) : SchemaN :=
  match c with
  | .cdefault | .coptional | .cnullable => .wrapper id target
  | .ctransform | .crefine => .effects id target

/-- wrap of env.ts: build the interception proxy around a raw node (a fresh
identity capturing the env key and type tag) and register that pair in the
metadata store against the proxy identity. -/
def wrapProxy (raw : SchemaN) (md : Metadata) (st : MetaStore) : SchemaN × MetaStore :=
  let a := alloc st
  (.proxy a.1 md raw, storeSet a.2 a.1 md)

/-- Invoking a chainable combinator on a node.  On a proxy, the proxy get
handler intercepts: the method runs against the raw target, producing a
fresh zod node, and the result is wrapped again with the same captured key
and tag.  On a plain node the combinator applies directly with no
registration. -/
def chainOn (c : Comb) (s : SchemaN) (st : MetaStore) : SchemaN × MetaStore :=
  match s with
  | .proxy _ md target =>
    let a := alloc st
    wrapProxy (rawApply c a.1 target) md a.2
  | _ =>
    let a := alloc st
    (rawApply c a.1 s, a.2)

/-- env(key) followed by one of the four constructors: build the base node
(string, coerce.number, coerce.boolean or enum, all leaves for the walk)
and wrap it with the key and the constructor tag. -/
def bindEnv (key tag : String) (st : MetaStore) : SchemaN × MetaStore :=
  let a := alloc st
  wrapProxy (.leaf a.1) ⟨key, tag⟩ a.2

/-- Apply a chain of combinator invocations left to right. -/
def applyChain (chain : List Comb) (p : SchemaN × MetaStore) : SchemaN × MetaStore :=
  chain.foldl (fun q c => chainOn c q.1 q.2) p

/-- The result value of zod safeParse, abstract in the error detail. -/
inductive SafeParseResult (E : Type) where
  | success (data : Value)
  | failure (error : E)

/-- What a load call does: return the validated data or throw the
structured error. -/
inductive LoadOutcome (E : Type) where
  | returns (data : Value)
  | throws (error : E)

/-- safeLoad of define.ts: build the merged input tree with loadValue and
hand it to the safeParse of the object schema (the external validation
engine, abstract here); it always returns a result value and never
throws. -/
def safeLoad {E : Type} (safeParse : Value → SafeParseResult E) (st : MetaStore)
    (shape : List (String × SchemaN)) (loaders : List Loader) : SafeParseResult E :=
  safeParse (Value.obj (loadValueN st shape loaders))

/-- load of define.ts: call safeLoad, throw the error of a failure result,
return the data of a success result. -/
def load {E : Type} (safeParse : Value → SafeParseResult E) (st : MetaStore)
    (shape : List (String × SchemaN)) (loaders : List Loader) : LoadOutcome E :=
  match safeLoad safeParse st shape loaders with
  | .success d => .returns d
  | .failure e => .throws e

/-- State-passing view of WeakMap.get, the only metadata-store operation a
resolution call performs; it reads the store and hands it back. -/
def storeGetT (id : Nat) (st : MetaStore) : Option Metadata × MetaStore :=
  (storeGet st id, st)

/-- State-passing view of the metadata walk: every store access is an
explicit get threading the store through. -/
def findMetadataT : SchemaN → MetaStore → Option Metadata × MetaStore
  | .leaf i, st => storeGetT i st
  | .wrapper i inner, st =>
    match storeGetT i st with
    | (some md, st1) => (some md, st1)
    | (none, st1) => findMetadataT inner st1
  | .effects i inner, st =>
    match storeGetT i st with
    | (some md, st1) => (some md, st1)
    | (none, st1) => findMetadataT inner st1
  | .proxy i _ target, st =>
    match storeGetT i st with
    | (some md, st1) => (some md, st1)
    | (none, st1) => findMetadataT target st1
  | .zobject i _, st => storeGetT i st

/-- State-passing view of resolveEnvValue. -/
def resolveEnvValueT (s : SchemaN) (env : List (String × String)) (st : MetaStore) :
    Option Value × MetaStore :=
  match findMetadataT s st with
  | (none, st1) => (none, st1)
  | (some md, st1) =>
    if md.key = "" then (none, st1)
    else
    let value := assocLookup md.key env
    let coerced : Option Value :=
      if md.tag = "string" then value.map Value.str
      else if md.tag = "number" then
        match value with
        | some v => if v = "" then none else some (.num (jsStringToNumber v))
        | none => none
      else if md.tag = "boolean" then
        if value = some "true" then some (.bool true)
        else if value = some "false" then some (.bool false)
        else none
      else if md.tag = "enum" then
        match value with
        | some v =>
          if v ≠ "" && !jsIsNaN (jsStringToNumber v) && jsIsInteger (jsStringToNumber v) then
            some (.num (jsStringToNumber v))
          else some (.str v)
        | none => none
      else none
    (coerced, st1)

/-- State-passing view of the loader loop for one leaf field. -/
def resolveFieldT (s : SchemaN) (key : String) :
    List Loader → Option Value → MetaStore → Option Value × MetaStore
  | [], acc, st => (acc, st)
  | l :: ls, acc, st =>
    match l with
    | .values vs =>
      match assocLookup key vs with
      | some v => resolveFieldT s key ls (some v) st
      | none => resolveFieldT s key ls acc st
    | .env e =>
      match resolveEnvValueT s e st with
      | (some v, st1) => resolveFieldT s key ls (some v) st1
      | (none, st1) => resolveFieldT s key ls acc st1

/-- State-passing view of loadValue: the store is threaded through every
metadata access of the walk. -/
def loadValueT : List (String × SchemaN) → List Loader → MetaStore →
    List (String × Value) × MetaStore
  | [], _, st => ([], st)
  | (key, s) :: rest, loaders, st =>
    match s with
    | .zobject _ sub =>
      match loadValueT sub (narrowLoaders key loaders) st with
      | (subTree, st1) =>
        match loadValueT rest loaders st1 with
        | (restTree, st2) => ((key, .obj subTree) :: restTree, st2)
    | _ =>
      match resolveFieldT s key loaders none st with
      | (some v, st1) =>
        match loadValueT rest loaders st1 with
        | (restTree, st2) => ((key, v) :: restTree, st2)
      | (none, st1) => loadValueT rest loaders st1

/-! Helper lemmas. -/

theorem storeGet_storeSet_self (st : MetaStore) (id : Nat) (md : Metadata) :
    storeGet (storeSet st id md) id = some md := by
  simp [storeGet, storeSet, assocLookup]

theorem findMetadataT_eq : ∀ (s : SchemaN) (st : MetaStore),
    findMetadataT s st = (findMetadataN st s, st)
  | .leaf _, _ => rfl
  | .wrapper i inner, st => by
    cases h : storeGet st i <;>
      simp [findMetadataT, findMetadataN, storeGetT, h, findMetadataT_eq inner st]
  | .effects i inner, st => by
    cases h : storeGet st i <;>
      simp [findMetadataT, findMetadataN, storeGetT, h, findMetadataT_eq inner st]
  | .proxy i md target, st => by
    cases h : storeGet st i <;>
      simp [findMetadataT, findMetadataN, storeGetT, h, findMetadataT_eq target st]
  | .zobject _ _, _ => rfl

theorem resolveEnvValueT_eq (s : SchemaN) (env : List (String × String)) (st : MetaStore) :
    resolveEnvValueT s env st = (resolveEnvValueN st s env, st) := by
  unfold resolveEnvValueT resolveEnvValueN
  rw [findMetadataT_eq]
  cases findMetadataN st s with
  | none => rfl
  | some md =>
    by_cases hk : md.key = "" <;> simp [hk]

theorem resolveFieldT_eq (s : SchemaN) (key : String) : ∀ (ls : List Loader)
    (acc : Option Value) (st : MetaStore),
    resolveFieldT s key ls acc st =
      (ls.foldl
        (fun a l =>
          match sourceYield st s key l with
          | some v => some v
          | none => a)
        acc, st) := by
  intro ls
  induction ls with
  | nil => intro acc st; rfl
  | cons l ls ih =>
    intro acc st
    cases l with
    | values vs =>
      cases h : assocLookup key vs with
      | some v => simp [resolveFieldT, sourceYield, h, ih]
      | none => simp [resolveFieldT, sourceYield, h, ih]
    | env e =>
      cases h : resolveEnvValueN st s e with
      | some v => simp [resolveFieldT, sourceYield, resolveEnvValueT_eq, h, ih]
      | none => simp [resolveFieldT, sourceYield, resolveEnvValueT_eq, h, ih]

theorem resolveFieldT_none_eq (s : SchemaN) (key : String) (loaders : List Loader)
    (st : MetaStore) :
    resolveFieldT s key loaders none st = (resolveField st s key loaders, st) := by
  simpa [resolveField] using resolveFieldT_eq s key loaders none st

theorem loadValueT_eq : ∀ (sh : List (String × SchemaN)) (loaders : List Loader)
    (st : MetaStore), loadValueT sh loaders st = (loadValueN st sh loaders, st)
  | [], _, _ => by simp [loadValueT, loadValueN]
  | (key, s) :: rest, loaders, st => by
    have hrest := loadValueT_eq rest loaders st
    cases s with
    | zobject i sub =>
      have hsub := loadValueT_eq sub (narrowLoaders key loaders) st
      simp [loadValueT, loadValueN, hsub, hrest]
    | leaf i =>
      simp only [loadValueT, loadValueN, resolveFieldT_none_eq]
      cases h : resolveField st (.leaf i) key loaders <;> simp [h, hrest]
    | wrapper i inner =>
      simp only [loadValueT, loadValueN, resolveFieldT_none_eq]
      cases h : resolveField st (.wrapper i inner) key loaders <;> simp [h, hrest]
    | effects i inner =>
      simp only [loadValueT, loadValueN, resolveFieldT_none_eq]
      cases h : resolveField st (.effects i inner) key loaders <;> simp [h, hrest]
    | proxy i md target =>
      simp only [loadValueT, loadValueN, resolveFieldT_none_eq]
      cases h : resolveField st (.proxy i md target) key loaders <;> simp [h, hrest]

theorem findSome_snoc (o : Option Value) (acc : Option Value) : ∀ L : List (Option Value),
    (L.findSome? id).orElse (fun _ => o.orElse fun _ => acc) =
      ((L ++ [o]).findSome? id).orElse fun _ => acc
  | [] => by cases o <;> rfl
  | a :: L => by
    cases a with
    | some v => rfl
    | none => exact findSome_snoc o acc L

/-- The loader loop keeps, for a leaf field, exactly the yield of the last
loader that yields a defined value. -/
theorem foldl_yield_eq (y : Loader → Option Value) : ∀ (ls : List Loader)
    (acc : Option Value),
    ls.foldl
      (fun a l =>
        match y l with
        | some v => some v
        | none => a)
      acc = ((ls.map y).reverse.findSome? id).orElse fun _ => acc
  | [], acc => by cases acc <;> rfl
  | l :: ls, acc => by
    have hstep :
        (match y l with
          | some v => some v
          | none => acc) = (y l).orElse fun _ => acc := by
      cases y l <;> rfl
    simp only [List.foldl_cons, List.map_cons, List.reverse_cons]
    rw [foldl_yield_eq y ls]
    simp only [hstep]
    exact findSome_snoc (y l) acc ((ls.map y).reverse)

theorem resolveField_eq_lastYield (st : MetaStore) (s : SchemaN) (key : String)
    (loaders : List Loader) :
    resolveField st s key loaders =
      ((loaders.map (sourceYield st s key)).reverse).findSome? id := by
  unfold resolveField
  rw [foldl_yield_eq]
  cases ((loaders.map (sourceYield st s key)).reverse).findSome? id <;> rfl

theorem loadValueN_lookup_absent (st : MetaStore) (loaders : List Loader) (key : String) :
    ∀ sh : List (String × SchemaN), key ∉ sh.map Prod.fst →
      assocLookup key (loadValueN st sh loaders) = none
  | [], _ => by simp [loadValueN, assocLookup]
  | (k, s) :: rest, h => by
    have hk : ¬ k = key := fun he => h (by simp [he])
    have hrest : key ∉ rest.map Prod.fst := fun hm => h (by simp [hm])
    have ih := loadValueN_lookup_absent st loaders key rest hrest
    cases s with
    | zobject i sub => simp [loadValueN, assocLookup, hk, ih]
    | leaf i =>
      simp only [loadValueN]
      cases resolveField st (.leaf i) k loaders <;> simp [assocLookup, hk, ih]
    | wrapper i inner =>
      simp only [loadValueN]
      cases resolveField st (.wrapper i inner) k loaders <;> simp [assocLookup, hk, ih]
    | effects i inner =>
      simp only [loadValueN]
      cases resolveField st (.effects i inner) k loaders <;> simp [assocLookup, hk, ih]
    | proxy i md target =>
      simp only [loadValueN]
      cases resolveField st (.proxy i md target) k loaders <;> simp [assocLookup, hk, ih]

/-- In the merged tree, a leaf field holds exactly what the loader loop
resolved for it: present when defined, absent when undefined. -/
theorem loadValueN_lookup_leaf (st : MetaStore) (loaders : List Loader) (key : String)
    (s : SchemaN) : ∀ sh : List (String × SchemaN), (key, s) ∈ sh →
      (sh.map Prod.fst).Nodup → s.isZodObject = false →
      assocLookup key (loadValueN st sh loaders) = resolveField st s key loaders
  | [], hmem, _, _ => absurd hmem (List.not_mem_nil _)
  | (k, s0) :: rest, hmem, hnodup, hleaf => by
    rcases List.mem_cons.mp hmem with heq | htail
    · cases heq
      have habs : key ∉ rest.map Prod.fst := by
        simpa using (List.nodup_cons.mp hnodup).1
      have habs2 := loadValueN_lookup_absent st loaders key rest habs
      cases s with
      | zobject i sub => simp [SchemaN.isZodObject] at hleaf
      | leaf i =>
        simp only [loadValueN]
        cases h : resolveField st (.leaf i) key loaders <;> simp [assocLookup, h, habs2]
      | wrapper i inner =>
        simp only [loadValueN]
        cases h : resolveField st (.wrapper i inner) key loaders <;>
          simp [assocLookup, h, habs2]
      | effects i inner =>
        simp only [loadValueN]
        cases h : resolveField st (.effects i inner) key loaders <;>
          simp [assocLookup, h, habs2]
      | proxy i md target =>
        simp only [loadValueN]
        cases h : resolveField st (.proxy i md target) key loaders <;>
          simp [assocLookup, h, habs2]
    · have hk : ¬ k = key := by
        intro he
        subst he
        exact (List.nodup_cons.mp hnodup).1 (by simpa using List.mem_map_of_mem Prod.fst htail)
      have ih := loadValueN_lookup_leaf st loaders key s rest htail
        (List.nodup_cons.mp hnodup).2 hleaf
      cases s0 with
      | zobject i sub => simp [loadValueN, assocLookup, hk, ih]
      | leaf i =>
        simp only [loadValueN]
        cases resolveField st (.leaf i) k loaders <;> simp [assocLookup, hk, ih]
      | wrapper i inner =>
        simp only [loadValueN]
        cases resolveField st (.wrapper i inner) k loaders <;> simp [assocLookup, hk, ih]
      | effects i inner =>
        simp only [loadValueN]
        cases resolveField st (.effects i inner) k loaders <;> simp [assocLookup, hk, ih]
      | proxy i md target =>
        simp only [loadValueN]
        cases resolveField st (.proxy i md target) k loaders <;> simp [assocLookup, hk, ih]

/-- In the merged tree, a nested object field is always present and holds
the recursive resolution of its sub-shape against the adjusted loaders. -/
theorem loadValueN_lookup_zobject (st : MetaStore) (loaders : List Loader) (key : String)
    (i : Nat) (sub : List (String × SchemaN)) : ∀ sh : List (String × SchemaN),
      (key, SchemaN.zobject i sub) ∈ sh → (sh.map Prod.fst).Nodup →
      assocLookup key (loadValueN st sh loaders) =
        some (.obj (loadValueN st sub (narrowLoaders key loaders)))
  | [], hmem, _ => absurd hmem (List.not_mem_nil _)
  | (k, s0) :: rest, hmem, hnodup => by
    rcases List.mem_cons.mp hmem with heq | htail
    · cases heq
      simp [loadValueN, assocLookup]
    · have hk : ¬ k = key := by
        intro he
        subst he
        exact (List.nodup_cons.mp hnodup).1 (by simpa using List.mem_map_of_mem Prod.fst htail)
      have ih := loadValueN_lookup_zobject st loaders key i sub rest htail
        (List.nodup_cons.mp hnodup).2
      cases s0 with
      | zobject j sub2 => simp [loadValueN, assocLookup, hk, ih]
      | leaf j =>
        simp only [loadValueN]
        cases resolveField st (.leaf j) k loaders <;> simp [assocLookup, hk, ih]
      | wrapper j inner =>
        simp only [loadValueN]
        cases resolveField st (.wrapper j inner) k loaders <;> simp [assocLookup, hk, ih]
      | effects j inner =>
        simp only [loadValueN]
        cases resolveField st (.effects j inner) k loaders <;> simp [assocLookup, hk, ih]
      | proxy j md target =>
        simp only [loadValueN]
        cases resolveField st (.proxy j md target) k loaders <;> simp [assocLookup, hk, ih]

/-- A schema-store pair that is a registered proxy carrying the given
metadata: the shape every binding has right after bindEnv and after each
chained combinator. -/
def IsBoundProxy (md : Metadata) (p : SchemaN × MetaStore) : Prop :=
  ∃ pid target, p.1 = SchemaN.proxy pid md target ∧ storeGet p.2 pid = some md

theorem wrapProxy_bound (raw : SchemaN) (md : Metadata) (st : MetaStore) :
    IsBoundProxy md (wrapProxy raw md st) :=
  ⟨st.next, raw, rfl, by simp [wrapProxy, alloc, storeGet_storeSet_self]⟩

theorem chainOn_bound (c : Comb) (md : Metadata) (p : SchemaN × MetaStore)
    (h : IsBoundProxy md p) : IsBoundProxy md (chainOn c p.1 p.2) := by
  obtain ⟨pid, target, h1, _⟩ := h
  rw [h1]
  exact wrapProxy_bound _ md _

theorem applyChain_bound (md : Metadata) : ∀ (chain : List Comb) (p : SchemaN × MetaStore),
    IsBoundProxy md p → IsBoundProxy md (applyChain chain p)
  | [], _, h => h
  | c :: cs, p, h =>
    applyChain_bound md cs (chainOn c p.1 p.2) (chainOn_bound c md p h)

theorem findMetadataN_of_bound (md : Metadata) (p : SchemaN × MetaStore)
    (h : IsBoundProxy md p) : findMetadataN p.2 p.1 = some md := by
  obtain ⟨pid, target, h1, h2⟩ := h
  rw [h1]
  simp [findMetadataN, h2]

/-- Sanity check mirroring the repository test of nested objects and
multiple sources: the values loader narrows into the server group, the env
loader passes through and overrides the host by its absolute key. -/
example :
    loadValueN ⟨4, [(1, ⟨"H", "string"⟩), (3, ⟨"P", "number"⟩)]⟩
      [("server", SchemaN.zobject 9
        [("host", SchemaN.proxy 1 ⟨"H", "string"⟩ (.leaf 0)),
          ("port", SchemaN.proxy 3 ⟨"P", "number"⟩ (.leaf 2))])]
      [Loader.values
          [("server", Value.obj [("port", Value.num (JsNumber.finite (mkRat 8000 1)))])],
        Loader.env [("H", "0.0.0.0")]] =
    [("server", Value.obj
      [("host", Value.str "0.0.0.0"),
        ("port", Value.num (JsNumber.finite (mkRat 8000 1)))])] := by
  simp only [loadValueN]
  rfl

/-! The claims. -/

/-- Claim C1: for every schema node created by bind/env with annotation
(K, T) and every finite chain of chainable combinator invocations applied
to it (default, optional, nullable, transform, refine, in any order and
number), the metadata walk starting at the outermost resulting node
recovers exactly the original external key K and semantic type tag T. -/
theorem c1_chain_walk_recovers_binding (key tag : String) (chain : List Comb)
    (st0 : MetaStore) :
    findMetadataN (applyChain chain (bindEnv key tag st0)).2
      (applyChain chain (bindEnv key tag st0)).1 = some ⟨key, tag⟩ :=
  findMetadataN_of_bound ⟨key, tag⟩ _
    (applyChain_bound ⟨key, tag⟩ chain (bindEnv key tag st0) (wrapProxy_bound _ _ _))

/-- Claim C2 counterexample: for the number binding of key P and an
environment source holding the present non-numeric string nope, the
resolver does not leave the field absent: it assigns the NaN result of the
numeric conversion into the merged input tree. -/
theorem c2_counterexample :
    jsStringToNumber "nope" = JsNumber.nan ∧
    assocLookup "port"
      (loadValueN (bindEnv "P" "number" ⟨0, []⟩).2
        [("port", (bindEnv "P" "number" ⟨0, []⟩).1)]
        [Loader.env [("P", "nope")]]) = some (Value.num JsNumber.nan) :=
  ⟨by decide, by simp only [bindEnv, wrapProxy, alloc, loadValueN]; rfl⟩

/-- Claim C2 amended: for every number binding whose external key is
non-empty (truthy), a present non-empty raw string v resolves to the
numeric conversion of v, the nearest IEEE double, and is assigned into the
merged tree; in particular a non-numeric v is assigned as NaN rather than
dropped to absence.  Absence arises only from an absent key, an empty raw
string, or the falsy empty binding key. -/
theorem c2_number_conversion_assigned (st : MetaStore) (s : SchemaN)
    (env : List (String × String)) (k v key : String)
    (sh : List (String × SchemaN)) (hk : k ≠ "")
    (hmd : findMetadataN st s = some ⟨k, "number"⟩)
    (henv : assocLookup k env = some v) (hne : v ≠ "")
    (hmem : (key, s) ∈ sh) (hnodup : (sh.map Prod.fst).Nodup)
    (hobj : s.isZodObject = false) :
    assocLookup key (loadValueN st sh [Loader.env env]) =
      some (Value.num (jsStringToNumber v)) := by
  rw [loadValueN_lookup_leaf st [Loader.env env] key s sh hmem hnodup hobj]
  simp [resolveField, sourceYield, resolveEnvValueN, hmd, henv, hne, hk]

theorem c2_number_conversion_assigned_witness :
    ("P" : String) ≠ "" ∧ ("nope" : String) ≠ "" ∧
    assocLookup "port"
      (loadValueN (bindEnv "P" "number" ⟨0, []⟩).2
        [("port", (bindEnv "P" "number" ⟨0, []⟩).1)]
        [Loader.env [("P", "nope")]]) = some (Value.num (jsStringToNumber "nope")) :=
  ⟨by decide, by decide,
    c2_number_conversion_assigned (bindEnv "P" "number" ⟨0, []⟩).2
      (bindEnv "P" "number" ⟨0, []⟩).1 [("P", "nope")] "P" "nope" "port"
      [("port", (bindEnv "P" "number" ⟨0, []⟩).1)]
      (by decide) rfl rfl (by decide) (by simp) (by simp) rfl⟩

/-- Claim C3: for every leaf field and ordered list of sources, the value
of the field in the merged tree is the yield of the last source yielding a
defined value (first defined entry of the reversed yield list), and the
field is absent when no source yields a defined value. -/
theorem c3_last_defined_source_wins (st : MetaStore) (loaders : List Loader)
    (key : String) (s : SchemaN) (sh : List (String × SchemaN))
    (hmem : (key, s) ∈ sh) (hnodup : (sh.map Prod.fst).Nodup)
    (hobj : s.isZodObject = false) :
    assocLookup key (loadValueN st sh loaders) =
      ((loaders.map (sourceYield st s key)).reverse).findSome? id := by
  rw [loadValueN_lookup_leaf st loaders key s sh hmem hnodup hobj,
    resolveField_eq_lastYield]

theorem c3_last_defined_source_wins_witness :
    assocLookup "port"
      (loadValueN (bindEnv "PORT" "number" ⟨0, []⟩).2
        [("port", (bindEnv "PORT" "number" ⟨0, []⟩).1)]
        [Loader.values [("port", Value.num (JsNumber.finite (mkRat 8000 1)))],
          Loader.env [("PORT", "9000")]]) =
      (([Loader.values [("port", Value.num (JsNumber.finite (mkRat 8000 1)))],
          Loader.env [("PORT", "9000")]].map
        (sourceYield (bindEnv "PORT" "number" ⟨0, []⟩).2
          (bindEnv "PORT" "number" ⟨0, []⟩).1 "port")).reverse).findSome? id ∧
    (([Loader.values [("port", Value.num (JsNumber.finite (mkRat 8000 1)))],
        Loader.env [("PORT", "9000")]].map
      (sourceYield (bindEnv "PORT" "number" ⟨0, []⟩).2
        (bindEnv "PORT" "number" ⟨0, []⟩).1 "port")).reverse).findSome? id =
      some (Value.num (JsNumber.finite (mkRat 9000 1))) :=
  ⟨c3_last_defined_source_wins (bindEnv "PORT" "number" ⟨0, []⟩).2
      [Loader.values [("port", Value.num (JsNumber.finite (mkRat 8000 1)))],
        Loader.env [("PORT", "9000")]] "port"
      (bindEnv "PORT" "number" ⟨0, []⟩).1
      [("port", (bindEnv "PORT" "number" ⟨0, []⟩).1)]
      (by simp) (by simp) rfl,
    by rfl⟩

/-- Claim C4 counterexample: a leaf field with no reachable annotation is
not left absent for every source list: a values source that defines the
field name assigns its value by name, with no annotation involved. -/
theorem c4_counterexample :
    findMetadataN ⟨1, []⟩ (SchemaN.leaf 0) = none ∧
    assocLookup "a"
      (loadValueN ⟨1, []⟩ [("a", SchemaN.leaf 0)]
        [Loader.values [("a", Value.str "v")]]) = some (Value.str "v") :=
  ⟨rfl, by simp only [loadValueN]; rfl⟩

/-- Claim C4 amended: a leaf field with no reachable annotation receives no
value from environment sources, so with a source list consisting solely of
environment sources the field is left absent; a values source that defines
the field name still assigns it regardless of the missing annotation. -/
theorem c4_unannotated_env_only_absent (st : MetaStore) (loaders : List Loader)
    (key : String) (s : SchemaN) (sh : List (String × SchemaN))
    (hmem : (key, s) ∈ sh) (hnodup : (sh.map Prod.fst).Nodup)
    (hobj : s.isZodObject = false)
    (hmd : findMetadataN st s = none)
    (henvonly : ∀ l ∈ loaders, ∃ e, l = Loader.env e) :
    assocLookup key (loadValueN st sh loaders) = none := by
  rw [loadValueN_lookup_leaf st loaders key s sh hmem hnodup hobj,
    resolveField_eq_lastYield]
  have hyield : ∀ l ∈ loaders, sourceYield st s key l = none := by
    intro l hl
    obtain ⟨e, rfl⟩ := henvonly l hl
    simp [sourceYield, resolveEnvValueN, hmd]
  rw [List.findSome?_eq_none_iff]
  intro o ho
  rcases List.mem_reverse.mp ho with hm
  rcases List.mem_map.mp hm with ⟨l, hl, rfl⟩
  simp [hyield l hl]

theorem c4_unannotated_env_only_absent_witness :
    findMetadataN ⟨1, []⟩ (SchemaN.leaf 0) = none ∧
    assocLookup "a"
      (loadValueN ⟨1, []⟩ [("a", SchemaN.leaf 0)]
        [Loader.env [("a", "x")], Loader.env []]) = none :=
  ⟨rfl,
    c4_unannotated_env_only_absent ⟨1, []⟩ [Loader.env [("a", "x")], Loader.env []]
      "a" (SchemaN.leaf 0) [("a", SchemaN.leaf 0)] (by simp) (by simp) rfl rfl
      (by
        intro l hl
        rcases List.mem_cons.mp hl with rfl | hl2
        · exact ⟨_, rfl⟩
        · obtain rfl := List.mem_singleton.mp hl2
          exact ⟨_, rfl⟩)⟩

/-- Claim C5 counterexample: for the enum binding whose external key is
the empty string, a present raw value at that key is neither resolved as a
number nor passed through as a string: the falsy-key guard in
resolveEnvValue returns undefined, although the raw string 1 is non-empty
and parses fully to the finite integer 1. -/
theorem c5_counterexample :
    assocLookup "" [("", "1")] = some "1" ∧
    ("1" : String) ≠ "" ∧
    jsIsInteger (jsStringToNumber "1") = true ∧
    resolveEnvValueN (bindEnv "" "enum" ⟨0, []⟩).2 (bindEnv "" "enum" ⟨0, []⟩).1
      [("", "1")] = none :=
  ⟨rfl, by decide, by decide, rfl⟩

/-- Claim C5 amended: for every enum binding whose external key is
non-empty (truthy) and every present raw string v, v resolves to a number
exactly when v is non-empty and its numeric conversion is a non-NaN
integer, which is the same as v parsing fully to a finite integral value;
otherwise v passes through unchanged as a string. -/
theorem c5_enum_numeric_guess (st : MetaStore) (s : SchemaN)
    (env : List (String × String)) (k v : String) (hk : k ≠ "")
    (hmd : findMetadataN st s = some ⟨k, "enum"⟩)
    (henv : assocLookup k env = some v) :
    (resolveEnvValueN st s env =
      if v ≠ "" && !jsIsNaN (jsStringToNumber v) && jsIsInteger (jsStringToNumber v)
      then some (Value.num (jsStringToNumber v))
      else some (Value.str v)) ∧
    ((v ≠ "" && !jsIsNaN (jsStringToNumber v) && jsIsInteger (jsStringToNumber v)) = true ↔
      v ≠ "" ∧ ∃ q : ℚ, jsStringToNumber v = JsNumber.finite q ∧ q.den = 1) := by
  constructor
  · simp [resolveEnvValueN, hmd, henv, hk]
  · cases h : jsStringToNumber v <;> simp [jsIsNaN, jsIsInteger]

theorem c5_enum_numeric_guess_witness :
    (resolveEnvValueN (bindEnv "E" "enum" ⟨0, []⟩).2 (bindEnv "E" "enum" ⟨0, []⟩).1
        [("E", "3.14")] =
      if ("3.14" : String) ≠ "" && !jsIsNaN (jsStringToNumber "3.14") &&
          jsIsInteger (jsStringToNumber "3.14")
      then some (Value.num (jsStringToNumber "3.14"))
      else some (Value.str "3.14")) ∧
    resolveEnvValueN (bindEnv "E" "enum" ⟨0, []⟩).2 (bindEnv "E" "enum" ⟨0, []⟩).1
        [("E", "3.14")] = some (Value.str "3.14") ∧
    resolveEnvValueN (bindEnv "E" "enum" ⟨0, []⟩).2 (bindEnv "E" "enum" ⟨0, []⟩).1
        [("E", "1")] = some (Value.num (JsNumber.finite (mkRat 1 1))) ∧
    resolveEnvValueN (bindEnv "E" "enum" ⟨0, []⟩).2 (bindEnv "E" "enum" ⟨0, []⟩).1
        [("E", "pending")] = some (Value.str "pending") :=
  ⟨(c5_enum_numeric_guess (bindEnv "E" "enum" ⟨0, []⟩).2 (bindEnv "E" "enum" ⟨0, []⟩).1
      [("E", "3.14")] "E" "3.14" (by decide) rfl rfl).1,
    by rfl, by rfl, by rfl⟩

/-- Claim C6: a nested-shape field recurses with the loaders adjusted so
that each values source is narrowed to the sub-tree at the field name
(empty when the sub-tree is absent or not a truthy object) and each
environment source is passed through unchanged. -/
theorem c6_values_narrow_env_passthrough (st : MetaStore) (loaders : List Loader)
    (key : String) (i : Nat) (sub : List (String × SchemaN))
    (sh : List (String × SchemaN))
    (hmem : (key, SchemaN.zobject i sub) ∈ sh)
    (hnodup : (sh.map Prod.fst).Nodup) :
    assocLookup key (loadValueN st sh loaders) =
      some (Value.obj (loadValueN st sub (loaders.map fun l =>
        match l with
        | Loader.values vs =>
          Loader.values
            (match assocLookup key vs with
              | some (Value.obj fields) => fields
              | _ => [])
        | Loader.env e => Loader.env e))) := by
  rw [loadValueN_lookup_zobject st loaders key i sub sh hmem hnodup]
  rfl

theorem c6_values_narrow_env_passthrough_witness :
    assocLookup "server"
      (loadValueN (bindEnv "H" "string" ⟨0, []⟩).2
        [("server", SchemaN.zobject 5 [("host", (bindEnv "H" "string" ⟨0, []⟩).1)])]
        [Loader.values [("server", Value.obj [("host", Value.str "yaml")])],
          Loader.env [("H", "0.0.0.0")]]) =
      some (Value.obj (loadValueN (bindEnv "H" "string" ⟨0, []⟩).2
        [("host", (bindEnv "H" "string" ⟨0, []⟩).1)]
        ([Loader.values [("server", Value.obj [("host", Value.str "yaml")])],
            Loader.env [("H", "0.0.0.0")]].map fun l =>
          match l with
          | Loader.values vs =>
            Loader.values
              (match assocLookup "server" vs with
                | some (Value.obj fields) => fields
                | _ => [])
          | Loader.env e => Loader.env e))) :=
  c6_values_narrow_env_passthrough (bindEnv "H" "string" ⟨0, []⟩).2
    [Loader.values [("server", Value.obj [("host", Value.str "yaml")])],
      Loader.env [("H", "0.0.0.0")]] "server" 5
    [("host", (bindEnv "H" "string" ⟨0, []⟩).1)]
    [("server", SchemaN.zobject 5 [("host", (bindEnv "H" "string" ⟨0, []⟩).1)])]
    (by simp) (by simp)

/-- Claim C7: safeLoad performs the identical resolution and validation
pipeline as load and always returns a result value; load returns the
validated data exactly when safeLoad reports success and throws exactly
the structured error safeLoad would return. -/
theorem c7_safeLoad_load_agree {E : Type} (sp : Value → SafeParseResult E)
    (st : MetaStore) (sh : List (String × SchemaN)) (loaders : List Loader) :
    (∀ d, load sp st sh loaders = LoadOutcome.returns d ↔
      safeLoad sp st sh loaders = SafeParseResult.success d) ∧
    (∀ e, load sp st sh loaders = LoadOutcome.throws e ↔
      safeLoad sp st sh loaders = SafeParseResult.failure e) ∧
    safeLoad sp st sh loaders = sp (Value.obj (loadValueN st sh loaders)) := by
  refine ⟨fun d => ?_, fun e => ?_, rfl⟩ <;>
    cases h : safeLoad sp st sh loaders <;> simp [load, h]

/-- Claim C8: resolution is a deterministic, state-preserving computation:
running the store-threaded resolver twice in sequence from any store
returns structurally identical trees, leaves the store exactly as it was,
and computes the pure resolution function of its arguments. -/
theorem c8_resolution_idempotent (sh : List (String × SchemaN))
    (loaders : List Loader) (st : MetaStore) :
    (loadValueT sh loaders ((loadValueT sh loaders st).2)).1 =
      (loadValueT sh loaders st).1 ∧
    (loadValueT sh loaders ((loadValueT sh loaders st).2)).2 = st ∧
    (loadValueT sh loaders st).1 = loadValueN st sh loaders := by
  simp [loadValueT_eq]

/-- Claim C9: for every number binding, an environment source holding the
empty string at the bound key resolves to absence, exactly like an unset
key, and the field stays absent in the merged tree. -/
theorem c9_empty_string_number_absent (st : MetaStore) (s : SchemaN)
    (env : List (String × String)) (k key : String)
    (sh : List (String × SchemaN))
    (hmd : findMetadataN st s = some ⟨k, "number"⟩)
    (henv : assocLookup k env = some "")
    (hmem : (key, s) ∈ sh) (hnodup : (sh.map Prod.fst).Nodup)
    (hobj : s.isZodObject = false) :
    resolveEnvValueN st s env = none ∧
    assocLookup key (loadValueN st sh [Loader.env env]) = none := by
  have h1 : resolveEnvValueN st s env = none := by
    simp [resolveEnvValueN, hmd, henv]
  refine ⟨h1, ?_⟩
  rw [loadValueN_lookup_leaf st [Loader.env env] key s sh hmem hnodup hobj]
  simp [resolveField, sourceYield, h1]

theorem c9_empty_string_number_absent_witness :
    resolveEnvValueN (bindEnv "P" "number" ⟨0, []⟩).2 (bindEnv "P" "number" ⟨0, []⟩).1
        [("P", "")] = none ∧
    assocLookup "port"
      (loadValueN (bindEnv "P" "number" ⟨0, []⟩).2
        [("port", (bindEnv "P" "number" ⟨0, []⟩).1)]
        [Loader.env [("P", "")]]) = none :=
  c9_empty_string_number_absent (bindEnv "P" "number" ⟨0, []⟩).2
    (bindEnv "P" "number" ⟨0, []⟩).1 [("P", "")] "P" "port"
    [("port", (bindEnv "P" "number" ⟨0, []⟩).1)]
    rfl rfl (by simp) (by simp) rfl

/-- Claim C10: every nested-shape field is present in the merged tree and
bound to an object, for every source list, even when no source supplies
anything beneath it. -/
theorem c10_nested_group_always_present (st : MetaStore) (loaders : List Loader)
    (key : String) (i : Nat) (sub : List (String × SchemaN))
    (sh : List (String × SchemaN))
    (hmem : (key, SchemaN.zobject i sub) ∈ sh)
    (hnodup : (sh.map Prod.fst).Nodup) :
    ∃ fields, assocLookup key (loadValueN st sh loaders) = some (Value.obj fields) :=
  ⟨_, loadValueN_lookup_zobject st loaders key i sub sh hmem hnodup⟩

theorem c10_nested_group_always_present_witness :
    ∃ fields, assocLookup "group"
      (loadValueN ⟨0, []⟩ [("group", SchemaN.zobject 7 [("x", SchemaN.leaf 3)])]
        [Loader.env []]) = some (Value.obj fields) :=
  c10_nested_group_always_present ⟨0, []⟩ [Loader.env []] "group" 7
    [("x", SchemaN.leaf 3)] [("group", SchemaN.zobject 7 [("x", SchemaN.leaf 3)])]
    (by simp) (by simp)

end ZodConf
